import Mathlib

/-!
Verification of `src/connstate/epoll_wait_cgo.c` (cloudwego/gopkg).

The C file implements one function, `cgo_epoll_wait_loop`, that runs an
infinite `epoll_wait` loop.  For each delivered event it atomically loads an
indirection slot (`ev->data.ptr`), skips the event when the loaded pointer is
NULL, and otherwise, when the event carries `EPOLLHUP | EPOLLRDHUP | EPOLLERR`,
performs `atomic_compare_exchange_strong(&conn->state, &{STATE_OK},
STATE_REMOTE_CLOSED)`.  After each drained batch it stores `1` into the
acknowledgement cell `freeack_ptr`.  On `epoll_wait` failure it retries when
`errno == EINTR` and returns `errno` otherwise.

The embedding below is a direct sequential model of that loop: connection
state cells are a function from cell identifiers to state values, one event is
the pair of its event-bit mask and the value its indirection slot loaded as,
and one run of the loop consumes a finite trace of `epoll_wait` outcomes.
-/

/-- Linux `errno` value for an interrupted system call (`EINTR`). -/
def EINTR : Nat := 4

/-- `#define MAX_EVENTS 1024` (line 25): the capacity of the `events` buffer
passed to `epoll_wait`. -/
def MAX_EVENTS : Nat := 1024

/-- `#define STATE_OK 0` (line 27). -/
def STATE_OK : Nat := 0

/-- `#define STATE_REMOTE_CLOSED 1` (line 28). -/
def STATE_REMOTE_CLOSED : Nat := 1

/-- `#define STATE_CLOSED 2` (line 29). -/
def STATE_CLOSED : Nat := 2

/-- Linux `EPOLLIN` bit (0x001). -/
def EPOLLIN : Nat := 1

/-- Linux `EPOLLERR` bit (0x008). -/
def EPOLLERR : Nat := 8

/-- Linux `EPOLLHUP` bit (0x010). -/
def EPOLLHUP : Nat := 16

/-- Linux `EPOLLRDHUP` bit (0x2000). -/
def EPOLLRDHUP : Nat := 8192

/-- One delivered `struct epoll_event`, as the loop body observes it:
`events` is the kernel-reported event-bit mask; `ptrLoad` is the value obtained
by `atomic_load((atomic_uintptr_t*)ev->data.ptr)` at line 54 — `none` models a
NULL pointer, `some c` models a non-null pointer to the state cell with
identifier `c`. -/
structure epoll_event where
  events : Nat
  ptrLoad : Option Nat
deriving DecidableEq, Repr

/-- The heap of connection state cells: cell identifier ↦ current value of its
`atomic_uint_least64_t state` field (line 33). -/
def Cells : Type := Nat → Nat

/-- A store to one cell's `state` field, leaving every other cell unchanged. -/
def writeCell (cells : Cells) (c : Nat) (v : Nat) : Cells :=
  fun x => if x = c then v else cells x

/-- The effect of
`atomic_compare_exchange_strong(&conn->state, &(uint64_t){STATE_OK}, STATE_REMOTE_CLOSED)`
(line 60) on one state value: the new value is `STATE_REMOTE_CLOSED` when the
current value is exactly `STATE_OK`, and the current value otherwise. -/
def casState (s : Nat) : Nat :=
  if s = STATE_OK then STATE_REMOTE_CLOSED else s

/-- The mask `EPOLLHUP | EPOLLRDHUP | EPOLLERR` tested at line 59. -/
def hupMask : Nat := EPOLLHUP ||| EPOLLRDHUP ||| EPOLLERR

/-- The body of the `for` loop at lines 49-62, for one event: if the loaded
slot is NULL the event is skipped (line 55); otherwise, if the event carries
any of `EPOLLHUP | EPOLLRDHUP | EPOLLERR`, the CAS of line 60 is performed on
the referenced cell. -/
def processEvent (cells : Cells) (ev : epoll_event) : Cells :=
  match ev.ptrLoad with
  | none => cells
  | some c =>
    if ev.events &&& hupMask ≠ 0 then writeCell cells c (casState (cells c))
    else cells

/-- The mutable state one loop iteration touches: the cell heap and the
32-bit acknowledgement cell `*freeack_ptr`. -/
structure LoopState where
  cells : Cells
  freeack : Nat

/-- One successful iteration of the `while (1)` loop (lines 49-65): process
every event of the batch in order, then `atomic_store(freeack_ptr, 1)`. -/
def stepBatch (st : LoopState) (evs : List epoll_event) : LoopState :=
  { cells := evs.foldl processEvent st.cells, freeack := 1 }

/-- One outcome of the `epoll_wait` call at line 43: either `n < 0` with the
given `errno`, or `n ≥ 0` with the list of delivered events. -/
inductive WaitRes where
  | fail (errno : Nat)
  | batch (evs : List epoll_event)
deriving DecidableEq

/-- The `while (1)` loop of `cgo_epoll_wait_loop` (lines 42-66), run over a
finite trace of `epoll_wait` outcomes.  The result is `(some e, st)` when the
loop executes `return errno` with `errno = e` leaving state `st`, and
`(none, st)` when the trace is exhausted with the loop still running in
state `st`.  A `fail EINTR` outcome is the `continue` of line 45; any other
failure is the `return errno` of line 46; a batch runs lines 49-65. -/
def runLoop : List WaitRes → LoopState → Option Nat × LoopState
  | [], st => (none, st)
  | WaitRes.fail e :: rest, st =>
    if e = EINTR then runLoop rest st else (some e, st)
  | WaitRes.batch evs :: rest, st => runLoop rest (stepBatch st evs)

/-- The kernel contract of `epoll_wait(epfd, events, MAX_EVENTS, -1)`
(line 43): with a buffer of capacity `MAX_EVENTS`, at most `MAX_EVENTS` of the
ready events are delivered in one call; the remainder stay ready for later
calls. -/
def epollDeliver (ready : List epoll_event) : List epoll_event :=
  ready.take MAX_EVENTS

/-- Wellformedness of an `epoll_wait` outcome trace: a failing call sets a
nonzero `errno` (POSIX), and a successful call delivers at most the buffer
capacity it was invoked with. -/
def WFtrace (trace : List WaitRes) : Prop :=
  ∀ r ∈ trace, (∀ e, r = WaitRes.fail e → e ≠ 0) ∧
    (∀ evs, r = WaitRes.batch evs → evs.length ≤ MAX_EVENTS)

/-- The initial states of the three-cell scenario: cell 0 (`A`) is `OK`,
cell 1 (`B`) is `OK`, cell 2 (`C`) is `CLOSED`. -/
def cellsABC : Cells :=
  fun x => if x = 0 then STATE_OK else if x = 1 then STATE_OK
    else if x = 2 then STATE_CLOSED else STATE_OK

/-- The three-event batch of the scenario: hang-up on `A`, hang-up on `B`,
readable-only on `C`. -/
def batchABC : List epoll_event :=
  [⟨EPOLLHUP, some 0⟩, ⟨EPOLLHUP, some 1⟩, ⟨EPOLLIN, some 2⟩]

/-- Pointwise characterization of one event's effect when the slot loaded
non-null: the referenced cell goes through the CAS, every other cell is
untouched. -/
theorem processEvent_apply (cells : Cells) (e c' c : Nat) :
    processEvent cells ⟨e, some c'⟩ c =
      if e &&& hupMask ≠ 0 ∧ c = c' then casState (cells c) else cells c := by
  by_cases hb : e &&& hupMask = 0
  · simp [processEvent, hb]
  · by_cases hc : c = c'
    · subst hc
      simp [processEvent, writeCell, hb]
    · simp [processEvent, writeCell, hb, hc]

/-- A null slot makes the whole event a no-op on the cell heap. -/
theorem processEvent_none (cells : Cells) (e : Nat) :
    processEvent cells ⟨e, none⟩ = cells := rfl

/-- C1: for every cell and every delivered event, the loop body only ever
performs the single transition `OK → REMOTE_CLOSED`; a cell whose state is not
`OK` is left unchanged, and the value `CLOSED` is never written (a cell that
reads `CLOSED` afterwards was already `CLOSED`). -/
theorem c1_only_ok_to_remote_closed (cells : Cells) (ev : epoll_event) (c : Nat) :
    (cells c ≠ STATE_OK → processEvent cells ev c = cells c) ∧
    (processEvent cells ev c = cells c ∨
      (cells c = STATE_OK ∧ processEvent cells ev c = STATE_REMOTE_CLOSED)) ∧
    (processEvent cells ev c = STATE_CLOSED → cells c = STATE_CLOSED) := by
  obtain ⟨e, _ | c'⟩ := ev
  · exact ⟨fun _ => rfl, Or.inl rfl, fun h => h⟩
  · rw [processEvent_apply]
    by_cases h : e &&& hupMask ≠ 0 ∧ c = c'
    · rw [if_pos h]
      by_cases hok : cells c = STATE_OK
      · simp [casState, hok, STATE_OK, STATE_REMOTE_CLOSED, STATE_CLOSED]
      · simp [casState, hok]
    · rw [if_neg h]
      exact ⟨fun _ => rfl, Or.inl rfl, fun h => h⟩

/-- Witness for C1 at a concrete input: a cell already `CLOSED` stays `CLOSED`
across a hang-up event addressed at it. -/
theorem c1_witness :
    processEvent (fun _ => STATE_CLOSED) ⟨EPOLLHUP, some 0⟩ 0 = STATE_CLOSED :=
  (c1_only_ok_to_remote_closed (fun _ => STATE_CLOSED) ⟨EPOLLHUP, some 0⟩ 0).1
    (by decide)

/-- C2: every batch iteration — including an empty batch — ends with the
acknowledgement cell holding `1`; the state the store is made in already has
every event of the batch fully applied to the cell heap; the iteration's
result does not depend on the acknowledgement cell's prior value (it is never
read), and `1` is the only value ever stored into it. -/
theorem c2_ack_after_batch (st : LoopState) (evs : List epoll_event) :
    (stepBatch st evs).freeack = 1 ∧
    (stepBatch st evs).cells = evs.foldl processEvent st.cells ∧
    (∀ a : Nat, stepBatch ⟨st.cells, a⟩ evs = stepBatch st evs) ∧
    (stepBatch st []).freeack = 1 :=
  ⟨rfl, rfl, fun _ => rfl, rfl⟩

/-- C3: an event whose indirection slot loads as NULL is skipped entirely —
it changes no cell, and processing of the remaining events of the batch is
exactly as if the event were absent. -/
theorem c3_null_slot_skipped (cells : Cells) (e : Nat) (st : LoopState)
    (evs1 evs2 : List epoll_event) :
    processEvent cells ⟨e, none⟩ = cells ∧
    stepBatch st (evs1 ++ ⟨e, none⟩ :: evs2) = stepBatch st (evs1 ++ evs2) := by
  refine ⟨rfl, ?_⟩
  simp only [stepBatch, List.foldl_append, List.foldl_cons, processEvent_none]

/-- C5: a wait interrupted by a signal is transparently retried: any number of
consecutive `EINTR` failures leaves the whole remaining run — cell states,
acknowledgement cell, termination behavior and return value — unchanged. -/
theorem c5_eintr_retry (rest : List WaitRes) (st : LoopState) (k : Nat) :
    runLoop (List.replicate k (WaitRes.fail EINTR) ++ rest) st =
      runLoop rest st := by
  induction k with
  | zero => rfl
  | succ n ih =>
    simp only [List.replicate_succ, List.cons_append, runLoop, if_pos rfl]
    exact ih

/-- Any returned value of the loop comes from a failing wait whose `errno` is
not `EINTR`. -/
theorem runLoop_some_fatal (trace : List WaitRes) (st : LoopState) (e : Nat) :
    (runLoop trace st).1 = some e → e ≠ EINTR ∧ WaitRes.fail e ∈ trace := by
  induction trace generalizing st with
  | nil => intro h; exact absurd h (by simp [runLoop])
  | cons r rest ih =>
    intro h
    match r with
    | WaitRes.batch evs =>
      obtain ⟨h1, h2⟩ := ih (stepBatch st evs) h
      exact ⟨h1, List.mem_cons_of_mem _ h2⟩
    | WaitRes.fail e' =>
      by_cases he : e' = EINTR
      · rw [runLoop, if_pos he] at h
        obtain ⟨h1, h2⟩ := ih st h
        exact ⟨h1, List.mem_cons_of_mem _ h2⟩
      · rw [runLoop, if_neg he] at h
        simp only [Prod.fst] at h
        obtain rfl : e' = e := Option.some.inj h
        exact ⟨he, List.mem_cons_self _ _⟩

/-- A trace whose only failures are `EINTR` never makes the loop return. -/
theorem runLoop_none_of_no_fatal (trace : List WaitRes) (st : LoopState)
    (hnf : ∀ e, WaitRes.fail e ∈ trace → e = EINTR) :
    (runLoop trace st).1 = none := by
  induction trace generalizing st with
  | nil => rfl
  | cons r rest ih =>
    match r with
    | WaitRes.batch evs =>
      exact ih (stepBatch st evs) (fun e he => hnf e (List.mem_cons_of_mem _ he))
    | WaitRes.fail e' =>
      have he : e' = EINTR := hnf e' (List.mem_cons_self _ _)
      rw [runLoop, if_pos he]
      exact ih st (fun e he => hnf e (List.mem_cons_of_mem _ he))

/-- C4: the loop returns only on a fatal (non-`EINTR`) failure of the wait
primitive, and then it returns that `errno` immediately, with no retry and no
further state change; when every failure in the trace is a recoverable
`EINTR` — events, empty batches, interruptions — the loop never returns. -/
theorem c4_exit_only_on_fatal (trace : List WaitRes) (st : LoopState) :
    (∀ e, (runLoop trace st).1 = some e → e ≠ EINTR ∧ WaitRes.fail e ∈ trace) ∧
    ((∀ e, WaitRes.fail e ∈ trace → e = EINTR) → (runLoop trace st).1 = none) ∧
    (∀ e rest, e ≠ EINTR →
      runLoop (WaitRes.fail e :: rest) st = (some e, st)) := by
  refine ⟨fun e h => runLoop_some_fatal trace st e h,
    fun h => runLoop_none_of_no_fatal trace st h, fun e rest he => ?_⟩
  rw [runLoop, if_neg he]

/-- Witness for C4 at a concrete input: a fatal failure with `errno = 9`
makes the loop return `9` at once, leaving the state untouched. -/
theorem c4_witness :
    runLoop [WaitRes.fail 9] ⟨fun _ => STATE_OK, 0⟩ =
      (some 9, ⟨fun _ => STATE_OK, 0⟩) :=
  (c4_exit_only_on_fatal [] ⟨fun _ => STATE_OK, 0⟩).2.2 9 [] (by decide)

/-- Bitwise-or of naturals is zero exactly when both sides are. -/
theorem natOr_eq_zero (x y : Nat) : x ||| y = 0 ↔ x = 0 ∧ y = 0 := by
  constructor
  · intro h
    refine ⟨Nat.zero_of_testBit_eq_false fun i => ?_,
      Nat.zero_of_testBit_eq_false fun i => ?_⟩
    · have hb := congrArg (fun n => Nat.testBit n i) h
      simp [Nat.testBit_or] at hb
      exact hb.1
    · have hb := congrArg (fun n => Nat.testBit n i) h
      simp [Nat.testBit_or] at hb
      exact hb.2
  · rintro ⟨rfl, rfl⟩
    rfl

/-- The test `ev->events & (EPOLLHUP | EPOLLRDHUP | EPOLLERR)` of line 59
fires exactly when the event signals hang-up, remote-shutdown-of-writes, or an
error condition. -/
theorem hupMask_decomp (e : Nat) :
    e &&& hupMask ≠ 0 ↔
      (e &&& EPOLLHUP ≠ 0 ∨ e &&& EPOLLRDHUP ≠ 0 ∨ e &&& EPOLLERR ≠ 0) := by
  have h1 : e &&& hupMask = (e &&& EPOLLHUP ||| e &&& EPOLLRDHUP) ||| e &&& EPOLLERR := by
    unfold hupMask
    rw [Nat.and_or_distrib_left e (EPOLLHUP ||| EPOLLRDHUP) EPOLLERR,
      Nat.and_or_distrib_left e EPOLLHUP EPOLLRDHUP]
  rw [h1, ne_eq, natOr_eq_zero, natOr_eq_zero]
  tauto

/-- The CAS target value is a fixed point of the CAS. -/
theorem casState_idem (s : Nat) : casState (casState s) = casState s := by
  unfold casState STATE_OK STATE_REMOTE_CLOSED
  by_cases h : s = 0 <;> simp [h]

/-- C6: for a non-null slot, the CAS is attempted exactly when the event
signals hang-up, remote-shutdown-of-writes, or an error; the three conditions
act identically (any two events carrying any of the three bits have the same
effect), an event carrying none of them writes no cell, and on an `OK` cell a
flagged event yields `REMOTE_CLOSED` no matter which bit fired. -/
theorem c6_cas_iff_hup_error (cells : Cells) (c e : Nat) :
    (processEvent cells ⟨e, some c⟩ =
      if e &&& EPOLLHUP ≠ 0 ∨ e &&& EPOLLRDHUP ≠ 0 ∨ e &&& EPOLLERR ≠ 0 then
        writeCell cells c (casState (cells c)) else cells) ∧
    (∀ e2, e &&& hupMask ≠ 0 → e2 &&& hupMask ≠ 0 →
      processEvent cells ⟨e, some c⟩ = processEvent cells ⟨e2, some c⟩) ∧
    (cells c = STATE_OK → e &&& hupMask ≠ 0 →
      processEvent cells ⟨e, some c⟩ c = STATE_REMOTE_CLOSED) := by
  refine ⟨?_, ?_, ?_⟩
  · have hdef : processEvent cells ⟨e, some c⟩ =
        if e &&& hupMask ≠ 0 then writeCell cells c (casState (cells c))
        else cells := rfl
    rw [hdef]
    exact if_congr (hupMask_decomp e) rfl rfl
  · intro e2 h1 h2
    funext x
    rw [processEvent_apply, processEvent_apply]
    by_cases hx : x = c
    · rw [if_pos ⟨h1, hx⟩, if_pos ⟨h2, hx⟩]
    · rw [if_neg (fun hh => hx hh.2), if_neg (fun hh => hx hh.2)]
  · intro hok hb
    rw [processEvent_apply, if_pos ⟨hb, rfl⟩]
    simp [casState, hok]

/-- Witness for C6 at a concrete input: a pure `EPOLLRDHUP` event on an `OK`
cell marks it `REMOTE_CLOSED`. -/
theorem c6_witness :
    processEvent (fun _ => STATE_OK) ⟨EPOLLRDHUP, some 0⟩ 0 =
      STATE_REMOTE_CLOSED :=
  (c6_cas_iff_hup_error (fun _ => STATE_OK) 0 EPOLLRDHUP).2.2 (by decide)
    (by decide)

/-- C7: delivery of hang-up/error events is idempotent — reprocessing the very
same event changes nothing further; the first flagged event on an `OK` cell
moves it to `REMOTE_CLOSED`, and any event leaves a `REMOTE_CLOSED` cell at
`REMOTE_CLOSED`. -/
theorem c7_idempotent (cells : Cells) (ev : epoll_event) (c : Nat) :
    processEvent (processEvent cells ev) ev = processEvent cells ev ∧
    (cells c = STATE_OK → ev.ptrLoad = some c → ev.events &&& hupMask ≠ 0 →
      processEvent cells ev c = STATE_REMOTE_CLOSED) ∧
    (cells c = STATE_REMOTE_CLOSED →
      processEvent cells ev c = STATE_REMOTE_CLOSED) := by
  refine ⟨?_, ?_, ?_⟩
  · obtain ⟨e, _ | c'⟩ := ev
    · rfl
    · funext x
      rw [processEvent_apply (processEvent cells ⟨e, some c'⟩) e c' x,
        processEvent_apply cells e c' x]
      by_cases hx : e &&& hupMask ≠ 0 ∧ x = c'
      · simp only [if_pos hx]
        exact casState_idem (cells x)
      · simp only [if_neg hx]
  · intro hok hsl hb
    obtain ⟨e, sl⟩ := ev
    simp only at hsl hb
    subst hsl
    rw [processEvent_apply, if_pos ⟨hb, rfl⟩]
    simp [casState, hok]
  · intro h1
    obtain ⟨e, _ | c'⟩ := ev
    · exact h1
    · rw [processEvent_apply]
      by_cases hx : e &&& hupMask ≠ 0 ∧ c = c'
      · rw [if_pos hx]
        simp [casState, h1, STATE_REMOTE_CLOSED, STATE_OK]
      · rw [if_neg hx]
        exact h1

/-- Witness for C7 at a concrete input: an `EPOLLERR` event on an `OK` cell
marks it `REMOTE_CLOSED`. -/
theorem c7_witness :
    processEvent (fun _ => STATE_OK) ⟨EPOLLERR, some 3⟩ 3 =
      STATE_REMOTE_CLOSED :=
  (c7_idempotent (fun _ => STATE_OK) ⟨EPOLLERR, some 3⟩ 3).2.1 (by decide)
    (by decide) (by decide)

/-- C8: the three-cell scenario — `A:OK`, `B:OK`, `C:CLOSED`; hang-up
delivered on `A` and `B`, readable-only on `C` — ends with
`A:REMOTE_CLOSED`, `B:REMOTE_CLOSED`, `C:CLOSED` unchanged, and the
acknowledgement cell holding `1`. -/
theorem c8_scenario :
    (stepBatch ⟨cellsABC, 0⟩ batchABC).cells 0 = STATE_REMOTE_CLOSED ∧
    (stepBatch ⟨cellsABC, 0⟩ batchABC).cells 1 = STATE_REMOTE_CLOSED ∧
    (stepBatch ⟨cellsABC, 0⟩ batchABC).cells 2 = STATE_CLOSED ∧
    (stepBatch ⟨cellsABC, 0⟩ batchABC).freeack = 1 := by
  refine ⟨by decide, by decide, by decide, rfl⟩

/-- C9: one `epoll_wait` call with the `MAX_EVENTS`-capacity buffer of
line 40 delivers at most `MAX_EVENTS = 1024` events; a larger ready set is
drained across successive batches whose combined effect on the cells equals
processing the whole ready set, each batch being followed by its own
acknowledgement store of `1`. -/
theorem c9_batch_capacity (ready : List epoll_event) (st : LoopState) :
    (epollDeliver ready).length ≤ MAX_EVENTS ∧
    MAX_EVENTS = 1024 ∧
    (stepBatch (stepBatch st (epollDeliver ready))
        (ready.drop MAX_EVENTS)).cells = (stepBatch st ready).cells ∧
    (stepBatch st (epollDeliver ready)).freeack = 1 ∧
    (stepBatch (stepBatch st (epollDeliver ready))
        (ready.drop MAX_EVENTS)).freeack = 1 := by
  refine ⟨List.length_take_le _ _, rfl, ?_, rfl, rfl⟩
  show (ready.drop MAX_EVENTS).foldl processEvent
      ((ready.take MAX_EVENTS).foldl processEvent st.cells) =
    ready.foldl processEvent st.cells
  rw [← List.foldl_append, List.take_append_drop]

/-- C10: the boundary operation never returns a success code — whenever the
loop returns, the value is the nonzero `errno` of a failing wait (the `EINTR`
case having been consumed by the retry), so the `return 0` after the
`while (1)` loop is unreachable. -/
theorem c10_no_success_return (trace : List WaitRes) (st : LoopState) :
    WFtrace trace → ∀ e, (runLoop trace st).1 = some e →
      e ≠ 0 ∧ WaitRes.fail e ∈ trace := by
  intro hwf e h
  obtain ⟨_, hmem⟩ := runLoop_some_fatal trace st e h
  exact ⟨(hwf _ hmem).1 e rfl, hmem⟩

/-- Witness for C10 at a concrete input: a trace with one fatal failure
(`errno = 9`) yields the nonzero return value `9`. -/
theorem c10_witness :
    (9 : Nat) ≠ 0 ∧ WaitRes.fail 9 ∈ [WaitRes.fail 9] :=
  c10_no_success_return [WaitRes.fail 9] ⟨fun _ => STATE_OK, 0⟩
    (by
      intro r hr
      simp only [List.mem_singleton] at hr
      subst hr
      constructor
      · intro e he
        injection he with h2
        subst h2
        decide
      · intro evs he
        exact WaitRes.noConfusion he)
    9 rfl
